/-
Verification of the prompt-to-structured-plan pipeline of the AI-Planner
repository (backend/utils.py, backend/models.py, backend/planner.py).

The Python code is shallowly embedded: parsed-JSON values become the
inductive `JValue`, Python dicts become insertion-ordered association
lists (`List (String × JValue)`), Python exceptions become `Except PyErr`
results, and the external collaborators (the Groq chat-completion call and
`json.loads`) are modelled as oracle parameters of the orchestrator.
-/
import Mathlib

set_option maxHeartbeats 1000000

namespace AIPlanner

/-- A Python exception, reduced to its class name and its message. -/
structure PyErr where
  ty : String
  msg : String
deriving Repr, DecidableEq

/-- A parsed-JSON value as produced by `json.loads`: the dynamically typed
intermediate representation the sanitizer/validator operate on. -/
inductive JValue where
  | str (s : String)
  | num (n : Int)
  | bool (b : Bool)
  | null
  | arr (xs : List JValue)
  | obj (fields : List (String × JValue))

/-- Python dict lookup (`data[k]`), on an insertion-ordered association list. -/
def getField : List (String × JValue) → String → Option JValue
  | [], _ => none
  | (k', v) :: d, k => if k' == k then some v else getField d k

/-- Python dict membership (`k in data`). -/
def hasField (d : List (String × JValue)) (k : String) : Bool :=
  (getField d k).isSome

/-- Python dict assignment (`data[k] = v`): update an existing key in place,
otherwise append the new key at the end (insertion order). -/
def setField : List (String × JValue) → String → JValue → List (String × JValue)
  | [], k, v => [(k, v)]
  | (k', v') :: d, k, v => if k' == k then (k', v) :: d else (k', v') :: setField d k v

/-- One iteration of the `for field, default_value in required_fields.items()`
loop of `validate_json_structure`: `if field not in data: data[field] = default`. -/
def ensureField (d : List (String × JValue)) (k : String) (v : JValue) : List (String × JValue) :=
  if hasField d k then d else d ++ [(k, v)]

/-- The defaulting loop of `validate_json_structure`, unrolled over the
literal `required_fields` dict in its source order. -/
def ensureFields (d : List (String × JValue)) : List (String × JValue) :=
  ensureField (ensureField (ensureField (ensureField (ensureField (ensureField (ensureField
    d "project_name" (.str "Untitled Project"))
    "project_summary" (.str "No summary provided"))
    "total_weeks" (.num 4))
    "milestones" (.arr []))
    "risks" (.arr []))
    "monitoring_checkpoints" (.arr []))
    "parallel_opportunities" (.arr [])

/-- The synthetic placeholder risk appended by `validate_json_structure`. -/
def genericRisk : JValue :=
  .obj [("title", .str "Generic Risk"),
        ("description", .str "Standard project risk"),
        ("impact", .str "Medium"),
        ("probability", .str "Medium"),
        ("mitigation", .str "Monitor and adjust as needed")]

/-- Python `len(v)`: defined for lists, strings and dicts; raises `TypeError`
(here: `none`) on numbers, booleans and `None`. -/
def pyLen : JValue → Option Nat
  | .arr xs => some xs.length
  | .str s => some s.data.length
  | .obj fs => some fs.length
  | _ => none

/-- The `while len(data['risks']) < 3: data['risks'].append({...})` loop on a
list value; the fuel (3 suffices) mirrors the loop guard. -/
def padRisksAux : Nat → List JValue → List JValue
  | 0, xs => xs
  | fuel + 1, xs => if xs.length < 3 then padRisksAux fuel (xs ++ [genericRisk]) else xs

/-- The risk-padding loop entered with the list value of `data['risks']`. -/
def padRisks (xs : List JValue) : List JValue :=
  padRisksAux 3 xs

/-- `validate_json_structure` from backend/utils.py: default the seven
top-level fields, then force the `risks` value to length 3.  Like the
Python, it is fallible: `len()` on a non-sized `risks` value raises
`TypeError`, `.append` on a non-list raises `AttributeError`, and slicing a
dict raises `TypeError`.  (The `none` branch of the lookup is unreachable
because the defaulting loop has just inserted `risks`.) -/
def validate_json_structure (data : List (String × JValue)) :
    Except PyErr (List (String × JValue)) :=
  let data' := ensureFields data
  match getField data' "risks" with
  | none => .error ⟨"KeyError", "risks"⟩
  | some risks =>
    match pyLen risks with
    | none => .error ⟨"TypeError", "object has no len()"⟩
    | some n =>
      if n < 3 then
        match risks with
        | .arr xs => .ok (setField data' "risks" (.arr (padRisks xs)))
        | _ => .error ⟨"AttributeError", "object has no attribute append"⟩
      else if 3 < n then
        match risks with
        | .arr xs => .ok (setField data' "risks" (.arr (xs.take 3)))
        | .str s => .ok (setField data' "risks" (.str ⟨s.data.take 3⟩))
        | _ => .error ⟨"TypeError", "unhashable type: slice"⟩
      else .ok data'

/-- `validate_json_structure` as invoked by the orchestrator on an arbitrary
`json.loads` result: on any non-dict value the Python body raises a
`TypeError` (membership test on an int/None, item assignment on a list,
string indexing with a string key), which the orchestrator catches. -/
def validateJV : JValue → Except PyErr (List (String × JValue))
  | .obj d => validate_json_structure d
  | .arr _ => .error ⟨"TypeError", "list indices must be integers or slices, not str"⟩
  | .str _ => .error ⟨"TypeError", "string indices must be integers"⟩
  | _ => .error ⟨"TypeError", "argument is not iterable"⟩

/-- The seven required top-level fields, in source order. -/
def sevenKeys : List String :=
  ["project_name", "project_summary", "total_weeks", "milestones",
   "risks", "monitoring_checkpoints", "parallel_opportunities"]

/-- The whitespace class of Python's `\s` and `str.strip()` (ASCII part). -/
def isPySpace (c : Char) : Bool :=
  c = ' ' || c = '\t' || c = '\n' || c = '\r' || c = Char.ofNat 11 || c = Char.ofNat 12

/-- Greedy `\s*`: drop the maximal leading whitespace run. -/
def dropSpaces (s : List Char) : List Char :=
  s.dropWhile isPySpace

/-- The literal pattern of the first `re.sub`. -/
def jsonFence : List Char := "```json".data

/-- The literal closing fence of the second `re.sub`. -/
def closeFence : List Char := "```".data

/-- Does the pattern `p` match at the start of `l`? -/
def hasPre (p l : List Char) : Bool :=
  p == l.take p.length

/-- Does the pattern `p` match at some position of `l`? -/
def hasSub (p : List Char) : List Char → Bool
  | [] => hasPre p []
  | c :: cs => hasPre p (c :: cs) || hasSub p cs

/-- `re.sub(r'```json\s*', '', response)`: a left-to-right scan removing every
(non-overlapping) occurrence of ```` ```json ```` together with the greedy
whitespace run after it, resuming after the removed text.  The fuel argument
(called with the input length) only bounds the scan; each step consumes at
least one character. -/
def stripJsonFencesAux : Nat → List Char → List Char
  | 0, s => s
  | _ + 1, [] => []
  | fuel + 1, c :: cs =>
    if hasPre jsonFence (c :: cs) then
      stripJsonFencesAux fuel (dropSpaces ((c :: cs).drop jsonFence.length))
    else
      c :: stripJsonFencesAux fuel cs

/-- First substitution of `clean_json_response`. -/
def stripJsonFences (s : List Char) : List Char :=
  stripJsonFencesAux s.length s

/-- `re.sub(r'```\s*$', '', response)`: without `re.MULTILINE` the pattern
matches at the leftmost position where ```` ``` ```` is followed only by
whitespace reaching the end of the string, and the greedy `\s*` makes the
match extend to the end; the substitution therefore truncates there. -/
def stripTrailingFence : List Char → List Char
  | [] => []
  | c :: cs =>
    if hasPre closeFence (c :: cs) && ((c :: cs).drop closeFence.length).all isPySpace then
      []
    else
      c :: stripTrailingFence cs

/-- The open-brace and close-brace characters. -/
def lbrace : Char := Char.ofNat 123

/-- The close-brace character. -/
def rbrace : Char := Char.ofNat 125

/-- Index of the first character satisfying `p` (the regex engine's
left-to-right scan). -/
def firstIdx (p : Char → Bool) : List Char → Option Nat
  | [] => none
  | c :: cs => if p c then some 0 else (firstIdx p cs).map (· + 1)

/-- `re.search(r'\{.*\}', response, re.DOTALL)` with greedy `.*`: the match,
when it exists, runs from the first open brace to the last close brace
(provided that close brace lies after the open brace). -/
def braceSpan (s : List Char) : Option (List Char) :=
  match firstIdx (fun c => c == lbrace) s, firstIdx (fun c => c == rbrace) s.reverse with
  | some i, some k =>
    let j := s.length - 1 - k
    if i < j then some ((s.drop i).take (j + 1 - i)) else none
  | _, _ => none

/-- Python `str.strip()`. -/
def pyStrip (s : List Char) : List Char :=
  ((s.dropWhile isPySpace).reverse.dropWhile isPySpace).reverse

/-- `clean_json_response` from backend/utils.py, on the character list. -/
def cleanChars (response : List Char) : List Char :=
  let r1 := stripJsonFences response
  let r2 := stripTrailingFence r1
  match braceSpan r2 with
  | some m => m
  | none => pyStrip r2

/-- `clean_json_response` from backend/utils.py. -/
def clean_json_response (response : String) : String :=
  ⟨cleanChars response.data⟩

/-- Modelled from the spec: the sanitization algorithm exactly as the claim
C4 words it — strip a single *leading* ```` ```json ```` fence if present,
strip a trailing closer, take the first-brace-to-last-brace span of the
remaining text, and otherwise return the whitespace-trimmed *original* text
unchanged.  Used only to compare the claim's algorithm with the source's
`clean_json_response`. -/
def specCleanChars (s : List Char) : List Char :=
  let r1 := if hasPre jsonFence s then dropSpaces (s.drop jsonFence.length) else s
  let r2 := stripTrailingFence r1
  match braceSpan r2 with
  | some m => m
  | none => pyStrip s

/-- `Risk` from backend/models.py (pydantic `BaseModel`): five required
string fields; the Low/Medium/High levels appear only in field
descriptions, not as constraints. -/
structure Risk where
  title : String
  description : String
  impact : String
  probability : String
  mitigation : String
deriving Repr, DecidableEq

/-- `Task` from backend/models.py: `dependencies` defaults to `[]` and
`can_parallel` to `False`. -/
structure Task where
  name : String
  description : String
  estimated_hours : Int
  dependencies : List String
  can_parallel : Bool
deriving Repr, DecidableEq

/-- `Milestone` from backend/models.py. -/
structure Milestone where
  name : String
  description : String
  week_number : Int
  deliverables : List String
  tasks : List Task
  success_criteria : List String
deriving Repr, DecidableEq

/-- `Plan` from backend/models.py. -/
structure Plan where
  project_name : String
  project_summary : String
  total_weeks : Int
  milestones : List Milestone
  risks : List Risk
  monitoring_checkpoints : List String
  parallel_opportunities : List String
deriving Repr, DecidableEq

/-- Elementwise fallible conversion of a JSON sequence, as pydantic
validates each entry of a typed list field. -/
def mapOpt (f : α → Option β) : List α → Option (List β)
  | [] => some []
  | a :: l => do
    let b ← f a
    let bs ← mapOpt f l
    pure (b :: bs)

/-- Pydantic coercion of a JSON value into a `str` field. -/
def asStr : JValue → Option String
  | .str s => some s
  | _ => none

/-- Pydantic coercion of a JSON value into an `int` field. -/
def asInt : JValue → Option Int
  | .num n => some n
  | _ => none

/-- Pydantic coercion of a JSON value into a `bool` field. -/
def asBool : JValue → Option Bool
  | .bool b => some b
  | _ => none

/-- Pydantic coercion of a JSON value into a `List[str]` field. -/
def asStrList : JValue → Option (List String)
  | .arr xs => mapOpt asStr xs
  | _ => none

/-- Pydantic validation of one `Risk` entry. -/
def mkRisk : JValue → Option Risk
  | .obj d => do
    let title ← getField d "title" >>= asStr
    let description ← getField d "description" >>= asStr
    let impact ← getField d "impact" >>= asStr
    let probability ← getField d "probability" >>= asStr
    let mitigation ← getField d "mitigation" >>= asStr
    pure ⟨title, description, impact, probability, mitigation⟩
  | _ => none

/-- Pydantic validation of one `Task` entry (`dependencies` and
`can_parallel` optional with defaults). -/
def mkTask : JValue → Option Task
  | .obj d => do
    let name ← getField d "name" >>= asStr
    let description ← getField d "description" >>= asStr
    let estimated_hours ← getField d "estimated_hours" >>= asInt
    let dependencies ←
      match getField d "dependencies" with
      | none => some []
      | some v => asStrList v
    let can_parallel ←
      match getField d "can_parallel" with
      | none => some false
      | some v => asBool v
    pure ⟨name, description, estimated_hours, dependencies, can_parallel⟩
  | _ => none

/-- Pydantic validation of one `Milestone` entry. -/
def mkMilestone : JValue → Option Milestone
  | .obj d => do
    let name ← getField d "name" >>= asStr
    let description ← getField d "description" >>= asStr
    let week_number ← getField d "week_number" >>= asInt
    let deliverables ← getField d "deliverables" >>= asStrList
    let tasks ←
      match getField d "tasks" with
      | some (.arr xs) => mapOpt mkTask xs
      | _ => none
    let success_criteria ← getField d "success_criteria" >>= asStrList
    pure ⟨name, description, week_number, deliverables, tasks, success_criteria⟩
  | _ => none

/-- `Plan(**plan_data)`: pydantic validation of the whole plan (extra keys
are ignored, as by pydantic's default config). -/
def mkPlanO (d : List (String × JValue)) : Option Plan := do
  let project_name ← getField d "project_name" >>= asStr
  let project_summary ← getField d "project_summary" >>= asStr
  let total_weeks ← getField d "total_weeks" >>= asInt
  let milestones ←
    match getField d "milestones" with
    | some (.arr xs) => mapOpt mkMilestone xs
    | _ => none
  let risks ←
    match getField d "risks" with
    | some (.arr xs) => mapOpt mkRisk xs
    | _ => none
  let monitoring_checkpoints ← getField d "monitoring_checkpoints" >>= asStrList
  let parallel_opportunities ← getField d "parallel_opportunities" >>= asStrList
  pure ⟨project_name, project_summary, total_weeks, milestones, risks,
        monitoring_checkpoints, parallel_opportunities⟩

/-- `Plan(**plan_data)` as a fallible step: any mismatch raises pydantic's
`ValidationError`, which the orchestrator catches. -/
def mkPlan (d : List (String × JValue)) : Except PyErr Plan :=
  match mkPlanO d with
  | some p => .ok p
  | none => .error ⟨"ValidationError", "validation error for Plan"⟩

/-- Is a risk level one of the three defined levels? (Spec §3 invariant.) -/
def levelOK (s : String) : Bool :=
  s == "Low" || s == "Medium" || s == "High"

/-- The spec's value invariant for one `Risk`. -/
def riskInvariant (r : Risk) : Bool :=
  levelOK r.impact && levelOK r.probability

/-- The spec's value invariant for one `Task`. -/
def taskInvariant (t : Task) : Bool :=
  decide (0 ≤ t.estimated_hours)

/-- The spec's value invariant for one `Milestone`. -/
def milestoneInvariant (m : Milestone) : Bool :=
  decide (0 < m.week_number) && !m.deliverables.isEmpty && m.tasks.all taskInvariant

/-- The spec's data-model value invariants for a whole `Plan`. -/
def planInvariants (p : Plan) : Bool :=
  decide (0 < p.total_weeks) && p.milestones.all milestoneInvariant && p.risks.all riskInvariant

/-- String concatenation of a rendered fragment per element, mirroring the
`for x in xs: md += ...` accumulation of `Plan.to_markdown`. -/
def concatMapStr (f : α → String) : List α → String
  | [] => ""
  | a :: l => f a ++ concatMapStr f l

/-- The literal suffix appended to a parallel-capable task's line. -/
def parallelSuffix : String := " (Can be done in parallel)"

/-- `parallel_note = " (Can be done in parallel)" if task.can_parallel else ""`
from `Plan.to_markdown`. -/
def parallelNote (t : Task) : String :=
  if t.can_parallel then parallelSuffix else ""

/-- The markdown fragment emitted for one task. -/
def taskMd (t : Task) : String :=
  "- **" ++ t.name ++ "** (" ++ toString t.estimated_hours ++ "h)" ++ parallelNote t ++ "\n"
    ++ "  " ++ t.description ++ "\n"
    ++ (if t.dependencies.isEmpty then ""
        else "  Dependencies: " ++ String.intercalate ", " t.dependencies ++ "\n")

/-- The H3 heading emitted for one milestone. -/
def milestoneHeading (m : Milestone) : String :=
  "### " ++ m.name ++ " (Week " ++ toString m.week_number ++ ")"

/-- The markdown fragment emitted for one milestone. -/
def milestoneMd (m : Milestone) : String :=
  milestoneHeading m ++ "\n"
    ++ m.description ++ "\n\n"
    ++ "**Deliverables:**\n"
    ++ concatMapStr (fun d => "- " ++ d ++ "\n") m.deliverables
    ++ "\n**Tasks:**\n"
    ++ concatMapStr taskMd m.tasks
    ++ "\n**Success Criteria:**\n"
    ++ concatMapStr (fun c => "- " ++ c ++ "\n") m.success_criteria
    ++ "\n"

/-- The markdown fragment emitted for one risk, with its 1-based number. -/
def riskMd (i : Nat) (r : Risk) : String :=
  "### " ++ toString i ++ ". " ++ r.title ++ "\n"
    ++ "**Description:** " ++ r.description ++ "\n"
    ++ "**Impact:** " ++ r.impact ++ " | **Probability:** " ++ r.probability ++ "\n"
    ++ "**Mitigation:** " ++ r.mitigation ++ "\n\n"

/-- The `for i, risk in enumerate(self.risks, 1)` loop. -/
def risksMd : Nat → List Risk → String
  | _, [] => ""
  | i, r :: rs => riskMd i r ++ risksMd (i + 1) rs

/-- `Plan.to_markdown` from backend/models.py. -/
def to_markdown (p : Plan) : String :=
  "# " ++ p.project_name ++ "\n\n"
    ++ "**Project Summary:** " ++ p.project_summary ++ "\n\n"
    ++ "**Total Duration:** " ++ toString p.total_weeks ++ " weeks\n\n"
    ++ "## Milestones\n\n"
    ++ concatMapStr milestoneMd p.milestones
    ++ "## Top 3 Risks\n\n"
    ++ risksMd 1 p.risks
    ++ "## Monitoring Checkpoints\n\n"
    ++ concatMapStr (fun c => "- " ++ c ++ "\n") p.monitoring_checkpoints
    ++ "\n## Parallel Work Opportunities\n\n"
    ++ concatMapStr (fun o => "- " ++ o ++ "\n") p.parallel_opportunities

/-- `format_error_message` from backend/utils.py:
`f"Error ({type(error).__name__}): {str(error)}"`. -/
def format_error_message (error : PyErr) : String :=
  "Error (" ++ error.ty ++ "): " ++ error.msg

/-- `PlannerAgent._create_prompt` from backend/planner.py: the brief embedded
verbatim in the fixed JSON-only instruction template. -/
def create_prompt (project_brief : String) : String :=
  "\nCreate a detailed project plan for the following project brief. Respond with ONLY valid JSON matching this exact structure:\n\n\x7b\n  \"project_name\": \"string\",\n  \"project_summary\": \"string\",\n  \"total_weeks\": number,\n  \"milestones\": [\n    \x7b\n      \"name\": \"string\",\n      \"description\": \"string\", \n      \"week_number\": number,\n      \"deliverables\": [\"string\"],\n      \"tasks\": [\n        \x7b\n          \"name\": \"string\",\n          \"description\": \"string\",\n          \"estimated_hours\": number,\n          \"dependencies\": [\"string\"],\n          \"can_parallel\": boolean\n        \x7d\n      ],\n      \"success_criteria\": [\"string\"]\n    \x7d\n  ],\n  \"risks\": [\n    \x7b\n      \"title\": \"string\",\n      \"description\": \"string\",\n      \"impact\": \"Low|Medium|High\",\n      \"probability\": \"Low|Medium|High\",\n      \"mitigation\": \"string\"\n    \x7d\n  ],\n  \"monitoring_checkpoints\": [\"string\"],\n  \"parallel_opportunities\": [\"string\"]\n\x7d\n\nRequirements:\n- Realistic 4–12 week timeline\n- Detailed tasks & hour estimates\n- Exactly 3 risks with mitigations\n- Mark parallel-capable tasks\n- Include monitoring checkpoints\n\nProject Brief:\n"
    ++ project_brief
    ++ "\n\nRespond with valid JSON only:\n"

/-- `PlannerAgent.generate_plan` from backend/planner.py.  The two external
collaborators are oracle parameters: `llm` is the chat-completion call
(returning the first choice's message content, or any provider exception),
and `parse` is `json.loads` (returning the parsed value, or a
`JSONDecodeError`).  Every failure is intercepted: a `JSONDecodeError` by
the first `except` clause, everything else by `except Exception`, so the
function always returns a `(plan, error)` pair. -/
def generate_plan (llm : String → Except PyErr String)
    (parse : String → Except PyErr JValue) (project_brief : String) :
    Option Plan × Option String :=
  match llm (create_prompt project_brief) with
  | .error e => (none, some (format_error_message e))
  | .ok content =>
    let json_text := clean_json_response content
    match parse json_text with
    | .error e => (none, some ("Invalid JSON response from AI: " ++ e.msg))
    | .ok plan_data =>
      match validateJV plan_data with
      | .error e => (none, some (format_error_message e))
      | .ok pd =>
        match mkPlan pd with
        | .error e => (none, some (format_error_message e))
        | .ok plan => (some plan, none)

lemma getField_append_of_isSome {d : List (String × JValue)} {k : String}
    (e : List (String × JValue)) (h : (getField d k).isSome) :
    getField (d ++ e) k = getField d k := by
  induction d with
  | nil => simp [getField] at h
  | cons p d ih =>
    obtain ⟨k', v⟩ := p
    by_cases hk : k' == k
    · simp [getField, hk]
    · simp only [getField, hk] at h ⊢
      simp only [List.cons_append, getField, hk, Bool.false_eq_true, if_false]
      exact ih h

lemma getField_append_of_none {d : List (String × JValue)} {k : String}
    (e : List (String × JValue)) (h : getField d k = none) :
    getField (d ++ e) k = getField e k := by
  induction d with
  | nil => simp
  | cons p d ih =>
    obtain ⟨k', v⟩ := p
    by_cases hk : k' == k
    · simp [getField, hk] at h
    · simp only [getField, hk] at h
      simp only [List.cons_append, getField, hk, Bool.false_eq_true, if_false]
      exact ih h

lemma getField_setField_self (d : List (String × JValue)) (k : String) (v : JValue) :
    getField (setField d k v) k = some v := by
  induction d with
  | nil => simp [setField, getField]
  | cons p d ih =>
    obtain ⟨k', v'⟩ := p
    by_cases hk : k' == k
    · simp [setField, getField, hk]
    · simp [setField, getField, hk, ih]

lemma getField_setField_ne {k k' : String} (h : k' ≠ k) (d : List (String × JValue)) (v : JValue) :
    getField (setField d k v) k' = getField d k' := by
  induction d with
  | nil =>
    have : ¬ (k == k') := by simp [Ne.symm h]
    simp [setField, getField, this]
  | cons p d ih =>
    obtain ⟨k'', v'⟩ := p
    by_cases hk : k'' == k
    · have hne : ¬ (k'' == k') := by
        simp only [beq_iff_eq] at hk ⊢
        exact hk ▸ Ne.symm h
      simp [setField, getField, hk, hne]
    · by_cases hk' : k'' == k'
      · simp [setField, getField, hk, hk']
      · simp [setField, getField, hk, hk', ih]

lemma hasField_setField (d : List (String × JValue)) (k k' : String) (v : JValue)
    (h : hasField d k' = true) : hasField (setField d k v) k' = true := by
  by_cases hk : k' = k
  · subst hk
    simp [hasField, getField_setField_self]
  · simpa [hasField, getField_setField_ne hk] using h

lemma ensureField_of_hasField {d : List (String × JValue)} {k : String} (v : JValue)
    (h : hasField d k = true) : ensureField d k v = d := by
  simp [ensureField, h]

lemma getField_ensureField_self (d : List (String × JValue)) (k : String) (v : JValue) :
    getField (ensureField d k v) k = some ((getField d k).getD v) := by
  unfold ensureField hasField
  rcases h : getField d k with _ | w
  · simp only [h, Option.isSome_none, Bool.false_eq_true, if_false]
    rw [getField_append_of_none _ h]
    simp [getField]
  · simp only [h, Option.isSome_some, if_true, Option.getD_some]

lemma getField_ensureField_ne {k k' : String} (h : k' ≠ k)
    (d : List (String × JValue)) (v : JValue) :
    getField (ensureField d k v) k' = getField d k' := by
  unfold ensureField
  split
  · rfl
  · rcases hs : getField d k' with _ | w
    · rw [getField_append_of_none _ hs]
      have : ¬ (k == k') := by simp [Ne.symm h]
      simp [getField, this]
    · rw [getField_append_of_isSome _ (by simp [hs])]
      exact hs

lemma getField_ensureField_pres {d : List (String × JValue)} {k' : String}
    (k : String) (v : JValue) (h : (getField d k').isSome) :
    getField (ensureField d k v) k' = getField d k' := by
  by_cases hk : k' = k
  · subst hk
    rw [ensureField_of_hasField v h]
  · exact getField_ensureField_ne hk d v

lemma hasField_ensureField_self (d : List (String × JValue)) (k : String) (v : JValue) :
    hasField (ensureField d k v) k = true := by
  simp [hasField, getField_ensureField_self]

lemma hasField_ensureField_mono {d : List (String × JValue)} {k : String}
    (k' : String) (v : JValue) (h : hasField d k = true) :
    hasField (ensureField d k' v) k = true := by
  unfold hasField at h ⊢
  rw [getField_ensureField_pres k' v h]
  exact h

lemma gfE_project_name (d : List (String × JValue)) :
    getField (ensureFields d) "project_name" =
      some ((getField d "project_name").getD (.str "Untitled Project")) := by
  unfold ensureFields
  rw [getField_ensureField_ne (by decide), getField_ensureField_ne (by decide),
      getField_ensureField_ne (by decide), getField_ensureField_ne (by decide),
      getField_ensureField_ne (by decide), getField_ensureField_ne (by decide),
      getField_ensureField_self]

lemma gfE_project_summary (d : List (String × JValue)) :
    getField (ensureFields d) "project_summary" =
      some ((getField d "project_summary").getD (.str "No summary provided")) := by
  unfold ensureFields
  rw [getField_ensureField_ne (by decide), getField_ensureField_ne (by decide),
      getField_ensureField_ne (by decide), getField_ensureField_ne (by decide),
      getField_ensureField_ne (by decide), getField_ensureField_self,
      getField_ensureField_ne (by decide)]

lemma gfE_total_weeks (d : List (String × JValue)) :
    getField (ensureFields d) "total_weeks" =
      some ((getField d "total_weeks").getD (.num 4)) := by
  unfold ensureFields
  rw [getField_ensureField_ne (by decide), getField_ensureField_ne (by decide),
      getField_ensureField_ne (by decide), getField_ensureField_ne (by decide),
      getField_ensureField_self, getField_ensureField_ne (by decide),
      getField_ensureField_ne (by decide)]

lemma gfE_milestones (d : List (String × JValue)) :
    getField (ensureFields d) "milestones" =
      some ((getField d "milestones").getD (.arr [])) := by
  unfold ensureFields
  rw [getField_ensureField_ne (by decide), getField_ensureField_ne (by decide),
      getField_ensureField_ne (by decide), getField_ensureField_self,
      getField_ensureField_ne (by decide), getField_ensureField_ne (by decide),
      getField_ensureField_ne (by decide)]

lemma gfE_risks (d : List (String × JValue)) :
    getField (ensureFields d) "risks" =
      some ((getField d "risks").getD (.arr [])) := by
  unfold ensureFields
  rw [getField_ensureField_ne (by decide), getField_ensureField_ne (by decide),
      getField_ensureField_self, getField_ensureField_ne (by decide),
      getField_ensureField_ne (by decide), getField_ensureField_ne (by decide),
      getField_ensureField_ne (by decide)]

lemma gfE_monitoring (d : List (String × JValue)) :
    getField (ensureFields d) "monitoring_checkpoints" =
      some ((getField d "monitoring_checkpoints").getD (.arr [])) := by
  unfold ensureFields
  rw [getField_ensureField_ne (by decide), getField_ensureField_self,
      getField_ensureField_ne (by decide), getField_ensureField_ne (by decide),
      getField_ensureField_ne (by decide), getField_ensureField_ne (by decide),
      getField_ensureField_ne (by decide)]

lemma gfE_parallel (d : List (String × JValue)) :
    getField (ensureFields d) "parallel_opportunities" =
      some ((getField d "parallel_opportunities").getD (.arr [])) := by
  unfold ensureFields
  rw [getField_ensureField_self, getField_ensureField_ne (by decide),
      getField_ensureField_ne (by decide), getField_ensureField_ne (by decide),
      getField_ensureField_ne (by decide), getField_ensureField_ne (by decide),
      getField_ensureField_ne (by decide)]

lemma hasField_ensureFields_all (d : List (String × JValue)) :
    ∀ k ∈ sevenKeys, hasField (ensureFields d) k = true := by
  intro k hk
  simp only [sevenKeys, List.mem_cons, List.not_mem_nil, or_false] at hk
  rcases hk with rfl | rfl | rfl | rfl | rfl | rfl | rfl
  · simp [hasField, gfE_project_name]
  · simp [hasField, gfE_project_summary]
  · simp [hasField, gfE_total_weeks]
  · simp [hasField, gfE_milestones]
  · simp [hasField, gfE_risks]
  · simp [hasField, gfE_monitoring]
  · simp [hasField, gfE_parallel]

lemma pres2 (k' : String) (v : JValue) {d : List (String × JValue)} {k : String}
    (h : (getField d k).isSome) :
    getField (ensureField d k' v) k = getField d k ∧
      (getField (ensureField d k' v) k).isSome := by
  have e := getField_ensureField_pres k' v h
  exact ⟨e, by rw [e]; exact h⟩

lemma getField_ensureFields_pres {d : List (String × JValue)} {k : String}
    (h : (getField d k).isSome) :
    getField (ensureFields d) k = getField d k := by
  unfold ensureFields
  obtain ⟨e1, s1⟩ := pres2 "project_name" (.str "Untitled Project") h
  obtain ⟨e2, s2⟩ := pres2 "project_summary" (.str "No summary provided") s1
  obtain ⟨e3, s3⟩ := pres2 "total_weeks" (.num 4) s2
  obtain ⟨e4, s4⟩ := pres2 "milestones" (.arr []) s3
  obtain ⟨e5, s5⟩ := pres2 "risks" (.arr []) s4
  obtain ⟨e6, s6⟩ := pres2 "monitoring_checkpoints" (.arr []) s5
  obtain ⟨e7, s7⟩ := pres2 "parallel_opportunities" (.arr []) s6
  rw [e7, e6, e5, e4, e3, e2, e1]

lemma getField_ensureFields_outside {k : String} (d : List (String × JValue))
    (h : ¬ k ∈ sevenKeys) :
    getField (ensureFields d) k = getField d k := by
  simp only [sevenKeys, List.mem_cons, List.not_mem_nil, or_false, not_or] at h
  obtain ⟨h1, h2, h3, h4, h5, h6, h7⟩ := h
  unfold ensureFields
  rw [getField_ensureField_ne h7, getField_ensureField_ne h6, getField_ensureField_ne h5,
      getField_ensureField_ne h4, getField_ensureField_ne h3, getField_ensureField_ne h2,
      getField_ensureField_ne h1]

lemma padRisks_eq {xs : List JValue} (h : xs.length < 3) :
    padRisks xs = xs ++ List.replicate (3 - xs.length) genericRisk := by
  match xs with
  | [] => rfl
  | [a] => rfl
  | [a, b] => rfl
  | a :: b :: c :: rest => exact absurd h (by simp)

lemma padRisks_length {xs : List JValue} (h : xs.length < 3) :
    (padRisks xs).length = 3 := by
  rw [padRisks_eq h]
  simp
  omega

lemma validate_of_risks_arr (d : List (String × JValue)) (xs : List JValue)
    (h : getField (ensureFields d) "risks" = some (.arr xs)) :
    validate_json_structure d =
      if xs.length < 3 then .ok (setField (ensureFields d) "risks" (.arr (padRisks xs)))
      else if 3 < xs.length then .ok (setField (ensureFields d) "risks" (.arr (xs.take 3)))
      else .ok (ensureFields d) := by
  simp only [validate_json_structure]
  rw [h]
  rfl

lemma validate_ok_master {d d' : List (String × JValue)}
    (h : validate_json_structure d = .ok d') :
    (d' = ensureFields d ∨ ∃ v, d' = setField (ensureFields d) "risks" v) ∧
      (∃ v, getField d' "risks" = some v ∧ pyLen v = some 3) := by
  simp only [validate_json_structure] at h
  split at h
  · exact absurd h (by simp)
  · rename_i risks hr
    split at h
    · exact absurd h (by simp)
    · rename_i n hn
      split_ifs at h with h1 h2
      · split at h
        · rename_i xs
          injection h with h
          subst h
          refine ⟨Or.inr ⟨_, rfl⟩, ⟨_, getField_setField_self _ _ _, ?_⟩⟩
          simp only [pyLen] at hn ⊢
          injection hn with hn
          subst hn
          rw [padRisks_length h1]
        · exact absurd h (by simp)
      · split at h
        · rename_i xs
          injection h with h
          subst h
          refine ⟨Or.inr ⟨_, rfl⟩, ⟨_, getField_setField_self _ _ _, ?_⟩⟩
          simp only [pyLen] at hn ⊢
          injection hn with hn
          subst hn
          simp
          omega
        · rename_i s
          injection h with h
          subst h
          refine ⟨Or.inr ⟨_, rfl⟩, ⟨_, getField_setField_self _ _ _, ?_⟩⟩
          simp only [pyLen] at hn
          injection hn with hn
          subst hn
          show some ((s.data.take 3).length) = some 3
          rw [List.length_take]
          congr 1
          omega
        · exact absurd h (by simp)
      · injection h with h
        subst h
        have h3 : n = 3 := by omega
        subst h3
        exact ⟨Or.inl rfl, ⟨risks, hr, hn⟩⟩

lemma validate_ok_of_risks_arr (d : List (String × JValue)) (xs : List JValue)
    (hE : getField (ensureFields d) "risks" = some (.arr xs)) :
    ∃ d', validate_json_structure d = .ok d' := by
  rw [validate_of_risks_arr d xs hE]
  split_ifs <;> exact ⟨_, rfl⟩

lemma ensureFields_eq_self {d : List (String × JValue)}
    (h : ∀ k ∈ sevenKeys, hasField d k = true) : ensureFields d = d := by
  unfold ensureFields
  rw [ensureField_of_hasField _ (h "project_name" (by simp [sevenKeys])),
      ensureField_of_hasField _ (h "project_summary" (by simp [sevenKeys])),
      ensureField_of_hasField _ (h "total_weeks" (by simp [sevenKeys])),
      ensureField_of_hasField _ (h "milestones" (by simp [sevenKeys])),
      ensureField_of_hasField _ (h "risks" (by simp [sevenKeys])),
      ensureField_of_hasField _ (h "monitoring_checkpoints" (by simp [sevenKeys])),
      ensureField_of_hasField _ (h "parallel_opportunities" (by simp [sevenKeys]))]

lemma after_validate_defaults {d d' : List (String × JValue)}
    (hshape : d' = ensureFields d ∨ ∃ v, d' = setField (ensureFields d) "risks" v) :
    (∀ k ∈ sevenKeys, hasField d' k = true) ∧
      (∀ k, k ≠ "risks" → getField d' k = getField (ensureFields d) k) := by
  rcases hshape with rfl | ⟨v, rfl⟩
  · exact ⟨hasField_ensureFields_all d, fun _ _ => rfl⟩
  · constructor
    · intro k hk
      exact hasField_setField _ _ _ _ (hasField_ensureFields_all d k hk)
    · intro k hk
      exact getField_setField_ne hk _ _

/-- C2: for every input map whose `risks` field is a sequence, the validator
succeeds and the output `risks` sequence has length exactly 3: the first 3
original entries (in order) when the input had at least 3, the original
entries followed by synthetic `genericRisk` placeholders when it had fewer. -/
theorem risks_normalized_to_three (d : List (String × JValue)) (xs : List JValue)
    (h : getField d "risks" = some (.arr xs)) :
    ∃ d' ys, validate_json_structure d = .ok d' ∧
      getField d' "risks" = some (.arr ys) ∧ ys.length = 3 ∧
      (3 ≤ xs.length → ys = xs.take 3) ∧
      (xs.length < 3 → ys = xs ++ List.replicate (3 - xs.length) genericRisk) := by
  have hE : getField (ensureFields d) "risks" = some (.arr xs) := by
    rw [getField_ensureFields_pres (by simp [h])]
    exact h
  rw [validate_of_risks_arr d xs hE]
  by_cases h1 : xs.length < 3
  · rw [if_pos h1]
    refine ⟨_, padRisks xs, rfl, getField_setField_self _ _ _, padRisks_length h1, ?_, ?_⟩
    · intro hge
      omega
    · intro _
      exact padRisks_eq h1
  · by_cases h2 : 3 < xs.length
    · rw [if_neg h1, if_pos h2]
      refine ⟨_, xs.take 3, rfl, getField_setField_self _ _ _, ?_, ?_, ?_⟩
      · rw [List.length_take]
        omega
      · intro _
        rfl
      · intro hlt
        omega
    · rw [if_neg h1, if_neg h2]
      have h3 : xs.length = 3 := by omega
      refine ⟨_, xs, rfl, hE, h3, ?_, ?_⟩
      · intro _
        exact (List.take_of_length_le (by omega)).symm
      · intro hlt
        omega

/-- Witness for `risks_normalized_to_three` at a 5-element risks sequence. -/
theorem risks_normalized_to_three_witness :
    ∃ d' ys, validate_json_structure [("risks", .arr [.num 1, .num 2, .num 3, .num 4, .num 5])] = .ok d' ∧
      getField d' "risks" = some (.arr ys) ∧ ys.length = 3 ∧
      (3 ≤ ([JValue.num 1, .num 2, .num 3, .num 4, .num 5] : List JValue).length →
        ys = ([JValue.num 1, .num 2, .num 3, .num 4, .num 5] : List JValue).take 3) ∧
      (([JValue.num 1, .num 2, .num 3, .num 4, .num 5] : List JValue).length < 3 →
        ys = [JValue.num 1, .num 2, .num 3, .num 4, .num 5] ++
          List.replicate (3 - ([JValue.num 1, .num 2, .num 3, .num 4, .num 5] : List JValue).length) genericRisk) :=
  risks_normalized_to_three _ _ rfl

/-- The concrete input refuting C3: a map with every required field except
`risks` present. -/
def noRisksInput : List (String × JValue) :=
  [("project_name", .str "P"), ("project_summary", .str "S"), ("total_weeks", .num 6),
   ("milestones", .arr []), ("monitoring_checkpoints", .arr []),
   ("parallel_opportunities", .arr [])]

/-- C3 counterexample: on a map missing only `risks`, the returned map does
not carry the empty-sequence default for `risks` — the validator first
defaults it and then pads it to three synthetic placeholder risks. -/
theorem missing_risks_not_defaulted_to_empty :
    getField noRisksInput "risks" = none ∧
      validate_json_structure noRisksInput =
        .ok (noRisksInput ++ [("risks", .arr [genericRisk, genericRisk, genericRisk])]) ∧
      getField (noRisksInput ++ [("risks", .arr [genericRisk, genericRisk, genericRisk])]) "risks"
        ≠ some (.arr []) := by
  refine ⟨rfl, rfl, ?_⟩
  intro hcontra
  rw [show getField (noRisksInput ++ [("risks", JValue.arr [genericRisk, genericRisk, genericRisk])]) "risks"
        = some (.arr [genericRisk, genericRisk, genericRisk]) from rfl] at hcontra
  injection hcontra with h1
  injection h1 with h2
  exact absurd h2 (by simp)

/-- C3 as amended: whenever the `risks` field is absent or is a sequence,
the validator succeeds, all seven required fields are present in the output,
and every *other* missing field carries its named default; a missing `risks`
field is first defaulted to the empty sequence and then normalized, so it
appears as three synthetic placeholder risks. -/
theorem missing_fields_defaulted (d : List (String × JValue))
    (hrisks : getField d "risks" = none ∨ ∃ xs, getField d "risks" = some (.arr xs)) :
    ∃ d', validate_json_structure d = .ok d' ∧
      (∀ k ∈ sevenKeys, hasField d' k = true) ∧
      (getField d "project_name" = none →
        getField d' "project_name" = some (.str "Untitled Project")) ∧
      (getField d "project_summary" = none →
        getField d' "project_summary" = some (.str "No summary provided")) ∧
      (getField d "total_weeks" = none → getField d' "total_weeks" = some (.num 4)) ∧
      (getField d "milestones" = none → getField d' "milestones" = some (.arr [])) ∧
      (getField d "monitoring_checkpoints" = none →
        getField d' "monitoring_checkpoints" = some (.arr [])) ∧
      (getField d "parallel_opportunities" = none →
        getField d' "parallel_opportunities" = some (.arr [])) ∧
      (getField d "risks" = none →
        getField d' "risks" = some (.arr [genericRisk, genericRisk, genericRisk])) := by
  have hEx : ∃ xs, getField (ensureFields d) "risks" = some (.arr xs) ∧
      (getField d "risks" = none → xs = []) := by
    rcases hrisks with h0 | ⟨xs, h0⟩
    · exact ⟨[], by rw [gfE_risks, h0]; rfl, fun _ => rfl⟩
    · refine ⟨xs, by rw [gfE_risks, h0]; rfl, fun hc => ?_⟩
      rw [h0] at hc
      exact absurd hc (by simp)
  obtain ⟨xs, hE, hnil⟩ := hEx
  obtain ⟨d', hd'⟩ := validate_ok_of_risks_arr d xs hE
  obtain ⟨hall, hne⟩ := after_validate_defaults (validate_ok_master hd').1
  refine ⟨d', hd', hall, ?_, ?_, ?_, ?_, ?_, ?_, ?_⟩
  · intro h0
    rw [hne _ (by decide), gfE_project_name, h0]
    rfl
  · intro h0
    rw [hne _ (by decide), gfE_project_summary, h0]
    rfl
  · intro h0
    rw [hne _ (by decide), gfE_total_weeks, h0]
    rfl
  · intro h0
    rw [hne _ (by decide), gfE_milestones, h0]
    rfl
  · intro h0
    rw [hne _ (by decide), gfE_monitoring, h0]
    rfl
  · intro h0
    rw [hne _ (by decide), gfE_parallel, h0]
    rfl
  · intro h0
    have hxs := hnil h0
    subst hxs
    rw [validate_of_risks_arr d [] hE, if_pos (by simp)] at hd'
    injection hd' with hd'
    subst hd'
    exact getField_setField_self _ _ _

/-- Witness for `missing_fields_defaulted` at the empty map. -/
theorem missing_fields_defaulted_witness :
    ∃ d', validate_json_structure [] = .ok d' ∧
      (∀ k ∈ sevenKeys, hasField d' k = true) ∧
      (getField [] "project_name" = none →
        getField d' "project_name" = some (.str "Untitled Project")) ∧
      (getField [] "project_summary" = none →
        getField d' "project_summary" = some (.str "No summary provided")) ∧
      (getField [] "total_weeks" = none → getField d' "total_weeks" = some (.num 4)) ∧
      (getField [] "milestones" = none → getField d' "milestones" = some (.arr [])) ∧
      (getField [] "monitoring_checkpoints" = none →
        getField d' "monitoring_checkpoints" = some (.arr [])) ∧
      (getField [] "parallel_opportunities" = none →
        getField d' "parallel_opportunities" = some (.arr [])) ∧
      (getField [] "risks" = none →
        getField d' "risks" = some (.arr [genericRisk, genericRisk, genericRisk])) :=
  missing_fields_defaulted [] (Or.inl rfl)

/-- C5 counterexample: `validate_json_structure` is not total — with `risks`
bound to a number, `len(data['risks'])` raises a `TypeError` (modelled as an
error result), so no map is returned. -/
theorem validator_fails_on_numeric_risks :
    validate_json_structure [("risks", JValue.num 5)] =
      .error ⟨"TypeError", "object has no len()"⟩ := rfl

/-- C5 as amended: `validate_json_structure` never fails *provided* the
`risks` field, when present, is a sequence; for every such map it returns a
map with all seven required fields present. -/
theorem validator_total_on_sequence_risks (d : List (String × JValue))
    (hrisks : getField d "risks" = none ∨ ∃ xs, getField d "risks" = some (.arr xs)) :
    ∃ d', validate_json_structure d = .ok d' ∧ ∀ k ∈ sevenKeys, hasField d' k = true := by
  have hEx : ∃ xs, getField (ensureFields d) "risks" = some (.arr xs) := by
    rcases hrisks with h0 | ⟨xs, h0⟩
    · exact ⟨[], by rw [gfE_risks, h0]; rfl⟩
    · exact ⟨xs, by rw [gfE_risks, h0]; rfl⟩
  obtain ⟨xs, hE⟩ := hEx
  obtain ⟨d', hd'⟩ := validate_ok_of_risks_arr d xs hE
  exact ⟨d', hd', (after_validate_defaults (validate_ok_master hd').1).1⟩

/-- Witness for `validator_total_on_sequence_risks` at a map with a
wrongly-typed (but sequence-valued) risks field and junk elsewhere. -/
theorem validator_total_on_sequence_risks_witness :
    ∃ d', validate_json_structure [("total_weeks", .str "six"), ("risks", .arr [.null])] = .ok d' ∧
      ∀ k ∈ sevenKeys, hasField d' k = true :=
  validator_total_on_sequence_risks _ (Or.inr ⟨[.null], rfl⟩)

/-- C7: `validate_json_structure` is idempotent — running it on its own
successful output changes nothing (and an error propagates unchanged), so
applying it twice equals applying it once. -/
theorem validator_idempotent (d : List (String × JValue)) :
    (validate_json_structure d).bind validate_json_structure = validate_json_structure d := by
  rcases hv : validate_json_structure d with e | d'
  · rfl
  · rcases validate_ok_master hv with ⟨hshape, v, hrv, hlen⟩
    have hall := (after_validate_defaults hshape).1
    have hE7 : ensureFields d' = d' := ensureFields_eq_self hall
    show validate_json_structure d' = Except.ok d'
    rcases v with s | n | b | _ | xs | fs
    · simp only [pyLen] at hlen
      injection hlen with hlen
      simp only [validate_json_structure, hE7, hrv, pyLen]
      rw [hlen]
      norm_num
    · exact absurd hlen (by simp [pyLen])
    · exact absurd hlen (by simp [pyLen])
    · exact absurd hlen (by simp [pyLen])
    · simp only [pyLen] at hlen
      injection hlen with hlen
      rw [validate_of_risks_arr d' xs (by rw [hE7]; exact hrv), if_neg (by omega),
        if_neg (by omega), hE7]
    · simp only [pyLen] at hlen
      injection hlen with hlen
      simp only [validate_json_structure, hE7, hrv, pyLen]
      rw [hlen]
      norm_num

/-- C10: the validator's frame — every key other than `risks` that is
present in the input keeps its exact value in the output (even a
wrongly-typed one), and every key outside the seven required fields has the
same binding (present or absent) in input and output. -/
theorem validator_frame {d d' : List (String × JValue)}
    (h : validate_json_structure d = .ok d') :
    (∀ k, k ≠ "risks" → ∀ v, getField d k = some v → getField d' k = some v) ∧
      (∀ k, ¬ k ∈ sevenKeys → getField d' k = getField d k) := by
  have hm := validate_ok_master h
  rcases hm.1 with rfl | ⟨v, rfl⟩
  · constructor
    · intro k _ v hv
      rw [getField_ensureFields_pres (by simp [hv])]
      exact hv
    · intro k hk
      exact getField_ensureFields_outside d hk
  · constructor
    · intro k hk v hv
      rw [getField_setField_ne hk, getField_ensureFields_pres (by simp [hv])]
      exact hv
    · intro k hk
      have hkr : k ≠ "risks" := by
        intro hc
        subst hc
        exact hk (by simp [sevenKeys])
      rw [getField_setField_ne hkr, getField_ensureFields_outside d hk]

/-- A concrete validator input with an extra key and a present required
field, used to witness the frame property. -/
def frameInput : List (String × JValue) :=
  [("extra", .num 7), ("project_name", .str "Z"), ("risks", .arr [])]

/-- The validator's output on `frameInput`. -/
def frameOutput : List (String × JValue) :=
  [("extra", .num 7), ("project_name", .str "Z"),
   ("risks", .arr [genericRisk, genericRisk, genericRisk]),
   ("project_summary", .str "No summary provided"), ("total_weeks", .num 4),
   ("milestones", .arr []), ("monitoring_checkpoints", .arr []),
   ("parallel_opportunities", .arr [])]

/-- Witness for `validator_frame` at `frameInput`. -/
theorem validator_frame_witness :
    (∀ k, k ≠ "risks" → ∀ v, getField frameInput k = some v → getField frameOutput k = some v) ∧
      (∀ k, ¬ k ∈ sevenKeys → getField frameOutput k = getField frameInput k) :=
  @validator_frame frameInput frameOutput rfl

/-- C1: for every brief (and any behavior of the provider call and the JSON
parser), `generate_plan` returns a pair with exactly one non-null component:
`(plan, none)` on success, `(none, message)` on any failure; being a total
function of its oracles, no exception escapes the orchestrator. -/
theorem generate_plan_exactly_one (llm : String → Except PyErr String)
    (parse : String → Except PyErr JValue) (brief : String) :
    (∃ p, generate_plan llm parse brief = (some p, none)) ∨
      (∃ e, generate_plan llm parse brief = (none, some e)) := by
  cases hl : llm (create_prompt brief) with
  | error e => exact Or.inr ⟨format_error_message e, by simp [generate_plan, hl]⟩
  | ok content =>
    cases hp : parse (clean_json_response content) with
    | error e =>
      exact Or.inr ⟨"Invalid JSON response from AI: " ++ e.msg, by simp [generate_plan, hl, hp]⟩
    | ok j =>
      cases hv : validateJV j with
      | error e => exact Or.inr ⟨format_error_message e, by simp [generate_plan, hl, hp, hv]⟩
      | ok pd =>
        cases hm : mkPlan pd with
        | error e =>
          exact Or.inr ⟨format_error_message e, by simp [generate_plan, hl, hp, hv, hm]⟩
        | ok p => exact Or.inl ⟨p, by simp [generate_plan, hl, hp, hv, hm]⟩

lemma strDataAppend (a b : String) : (a ++ b).data = a.data ++ b.data := by
  cases a
  cases b
  rfl

/-- C9: the failure mapping distinguishes error kinds.  (a) When JSON parsing
of the sanitized text fails, the error is the distinct
`"Invalid JSON response from AI: "` message carrying the parser's message.
(b) When Plan construction fails after successful validation, the error is
`format_error_message` of a `ValidationError`, carrying the underlying
cause, whose message embeds the exception's type name.  (c) The two message
shapes can never coincide. -/
theorem error_kinds_distinguished (llm : String → Except PyErr String)
    (parse : String → Except PyErr JValue) (brief content : String) (e : PyErr) :
    (llm (create_prompt brief) = .ok content →
      parse (clean_json_response content) = .error e →
      generate_plan llm parse brief = (none, some ("Invalid JSON response from AI: " ++ e.msg))) ∧
    (∀ (j : JValue) (pd : List (String × JValue)),
      llm (create_prompt brief) = .ok content →
      parse (clean_json_response content) = .ok j →
      validateJV j = .ok pd → mkPlan pd = .error e →
      generate_plan llm parse brief = (none, some (format_error_message e)) ∧
        e.ty = "ValidationError") ∧
    (∀ m1 m2 : String,
      ("Invalid JSON response from AI: " ++ m1) ≠ ("Error (ValidationError): " ++ m2)) := by
  refine ⟨?_, ?_, ?_⟩
  · intro hl hp
    simp [generate_plan, hl, hp]
  · intro j pd hl hp hv hm
    constructor
    · simp [generate_plan, hl, hp, hv, hm]
    · unfold mkPlan at hm
      rcases hq : mkPlanO pd with _ | p
      · simp only [hq] at hm
        injection hm with hm
        rw [← hm]
      · simp only [hq] at hm
        exact absurd hm (by simp)
  · intro m1 m2 h
    have h2 := congrArg String.data h
    rw [strDataAppend, strDataAppend] at h2
    have h3 := congrArg List.head? h2
    rw [List.head?_append, List.head?_append] at h3
    have e1 : "Invalid JSON response from AI: ".data.head? = some 'I' := rfl
    have e2 : "Error (ValidationError): ".data.head? = some 'E' := rfl
    rw [e1, e2] at h3
    simp [Option.or] at h3

/-- A provider oracle that answers with fixed content. -/
def wLlmOk : String → Except PyErr String := fun _ => .ok "x"

/-- A `json.loads` oracle that fails to parse. -/
def wParseFail : String → Except PyErr JValue :=
  fun _ => .error ⟨"JSONDecodeError", "Expecting value: line 1 column 1 (char 0)"⟩

/-- A `json.loads` oracle that yields a map whose `milestones` field has the
wrong type, so validation passes but Plan construction fails. -/
def wParseSchemaBad : String → Except PyErr JValue :=
  fun _ => .ok (.obj [("milestones", .str "oops")])

/-- The validator's output on `wParseSchemaBad`'s value. -/
def schemaFailDict : List (String × JValue) :=
  [("milestones", .str "oops"), ("project_name", .str "Untitled Project"),
   ("project_summary", .str "No summary provided"), ("total_weeks", .num 4),
   ("risks", .arr [genericRisk, genericRisk, genericRisk]),
   ("monitoring_checkpoints", .arr []), ("parallel_opportunities", .arr [])]

/-- Witness for `error_kinds_distinguished` at concrete oracles: a parse
failure and a schema failure, with their distinct messages. -/
theorem error_kinds_distinguished_witness :
    generate_plan wLlmOk wParseFail "b" =
      (none, some ("Invalid JSON response from AI: " ++ "Expecting value: line 1 column 1 (char 0)")) ∧
    (generate_plan wLlmOk wParseSchemaBad "b" =
      (none, some (format_error_message ⟨"ValidationError", "validation error for Plan"⟩)) ∧
      (PyErr.mk "ValidationError" "validation error for Plan").ty = "ValidationError") ∧
    ("Invalid JSON response from AI: " ++ "x") ≠ ("Error (ValidationError): " ++ "y") :=
  ⟨(error_kinds_distinguished wLlmOk wParseFail "b" "x"
      ⟨"JSONDecodeError", "Expecting value: line 1 column 1 (char 0)"⟩).1 rfl rfl,
   (error_kinds_distinguished wLlmOk wParseSchemaBad "b" "x"
      ⟨"ValidationError", "validation error for Plan"⟩).2.1
      (.obj [("milestones", .str "oops")]) schemaFailDict rfl rfl rfl rfl,
   (error_kinds_distinguished wLlmOk wParseFail "b" "x" ⟨"JSONDecodeError", "m"⟩).2.2 "x" "y"⟩

/-- A well-typed plan JSON violating every value invariant: `total_weeks` 0,
`week_number` 0, empty `deliverables`, negative `estimated_hours`, and
impact/probability outside Low/Medium/High. -/
def badPlanJson : List (String × JValue) :=
  [("project_name", .str "P"), ("project_summary", .str "S"), ("total_weeks", .num 0),
   ("milestones", .arr [.obj
     [("name", .str "M"), ("description", .str "D"), ("week_number", .num 0),
      ("deliverables", .arr []),
      ("tasks", .arr [.obj
        [("name", .str "T"), ("description", .str "TD"), ("estimated_hours", .num (-5))]]),
      ("success_criteria", .arr [])]]),
   ("risks", .arr [.obj
     [("title", .str "R"), ("description", .str "RD"), ("impact", .str "Purple"),
      ("probability", .str "Sometimes"), ("mitigation", .str "None")]]),
   ("monitoring_checkpoints", .arr []), ("parallel_opportunities", .arr [])]

/-- The Plan pydantic constructs from `badPlanJson`. -/
def badPlan : Plan :=
  ⟨"P", "S", 0, [⟨"M", "D", 0, [], [⟨"T", "TD", -5, [], false⟩], []⟩],
   [⟨"R", "RD", "Purple", "Sometimes", "None"⟩], [], []⟩

/-- C6 counterexample: Plan construction succeeds on `badPlanJson`, yet the
resulting Plan violates the claimed value invariants (levels, non-negative
hours, positive week number, non-empty deliverables, positive total weeks). -/
theorem constructed_plan_violates_invariants :
    mkPlan badPlanJson = .ok badPlan ∧ planInvariants badPlan = false :=
  ⟨rfl, rfl⟩

/-- A family of plan JSONs with arbitrary values in the invariant-relevant
positions (all fields carrying their declared types). -/
def familyJson (impact probability : String) (hours week tw : Int)
    (delivs : List String) : List (String × JValue) :=
  [("project_name", .str "P"), ("project_summary", .str "S"), ("total_weeks", .num tw),
   ("milestones", .arr [.obj
     [("name", .str "M"), ("description", .str "D"), ("week_number", .num week),
      ("deliverables", .arr (delivs.map .str)),
      ("tasks", .arr [.obj
        [("name", .str "T"), ("description", .str "TD"), ("estimated_hours", .num hours)]]),
      ("success_criteria", .arr [])]]),
   ("risks", .arr [.obj
     [("title", .str "R"), ("description", .str "RD"), ("impact", .str impact),
      ("probability", .str probability), ("mitigation", .str "Mi")]]),
   ("monitoring_checkpoints", .arr []), ("parallel_opportunities", .arr [])]

lemma mapOpt_asStr_map (l : List String) : mapOpt asStr (l.map JValue.str) = some l := by
  induction l with
  | nil => rfl
  | cons a l ih => simp [mapOpt, asStr, ih]

/-- C6 as amended: Plan construction enforces field presence and declared
types only — it succeeds for *every* choice of impact/probability strings,
integer hours/week/total-week values and deliverables list (including ones
violating the stated invariants), with exactly those values in the Plan, and
it rejects a wrongly-typed field (a string `estimated_hours`) with a
`ValidationError`. -/
theorem construction_checks_types_only :
    (∀ (impact probability : String) (hours week tw : Int) (delivs : List String),
      mkPlan (familyJson impact probability hours week tw delivs) =
        .ok ⟨"P", "S", tw, [⟨"M", "D", week, delivs, [⟨"T", "TD", hours, [], false⟩], []⟩],
             [⟨"R", "RD", impact, probability, "Mi"⟩], [], []⟩) ∧
    mkPlan [("project_name", .str "P"), ("project_summary", .str "S"), ("total_weeks", .num 4),
            ("milestones", .arr [.obj
              [("name", .str "M"), ("description", .str "D"), ("week_number", .num 1),
               ("deliverables", .arr []),
               ("tasks", .arr [.obj
                 [("name", .str "T"), ("description", .str "TD"),
                  ("estimated_hours", .str "five")]]),
               ("success_criteria", .arr [])]]),
            ("risks", .arr []), ("monitoring_checkpoints", .arr []),
            ("parallel_opportunities", .arr [])] =
      .error ⟨"ValidationError", "validation error for Plan"⟩ := by
  constructor
  · intro impact probability hours week tw delivs
    simp [mkPlan, mkPlanO, familyJson, mkMilestone, mkTask, mkRisk, getField,
      asStr, asInt, asStrList, mapOpt, mapOpt_asStr_map]
  · rfl

lemma strExt {a b : String} (h : a.data = b.data) : a = b := by
  cases a
  cases b
  exact congrArg String.mk h

/-- The character list `s` contains each fragment of the given list, in
order (each occurring after the end of the previous one). -/
def containsInOrder : List Char → List (List Char) → Prop
  | _, [] => True
  | s, x :: xs => ∃ a b, s = a ++ x ++ b ∧ containsInOrder b xs

/-- `needle` occurs as a contiguous substring of `s`. -/
def strContains (needle s : String) : Prop :=
  ∃ a b, s = a ++ needle ++ b

lemma containsInOrder_prepend (pre s : List Char) (l : List (List Char))
    (h : containsInOrder s l) : containsInOrder (pre ++ s) l := by
  cases l with
  | nil => trivial
  | cons x xs =>
    obtain ⟨a, b, rfl, hb⟩ := h
    exact ⟨pre ++ a, b, by simp, hb⟩

lemma milestoneMd_decomp (m : Milestone) :
    (milestoneMd m).data = (milestoneHeading m).data ++
      ("\n" ++ m.description ++ "\n\n" ++ "**Deliverables:**\n"
        ++ concatMapStr (fun d => "- " ++ d ++ "\n") m.deliverables
        ++ "\n**Tasks:**\n" ++ concatMapStr taskMd m.tasks
        ++ "\n**Success Criteria:**\n"
        ++ concatMapStr (fun c => "- " ++ c ++ "\n") m.success_criteria ++ "\n").data := by
  simp [milestoneMd, strDataAppend, List.append_assoc]

lemma milestones_headings (ms : List Milestone) (rest : List Char) :
    containsInOrder ((concatMapStr milestoneMd ms).data ++ rest)
      (ms.map fun m => (milestoneHeading m).data) := by
  induction ms generalizing rest with
  | nil => trivial
  | cons m ms ih =>
    refine ⟨[], ("\n" ++ m.description ++ "\n\n" ++ "**Deliverables:**\n"
        ++ concatMapStr (fun d => "- " ++ d ++ "\n") m.deliverables
        ++ "\n**Tasks:**\n" ++ concatMapStr taskMd m.tasks
        ++ "\n**Success Criteria:**\n"
        ++ concatMapStr (fun c => "- " ++ c ++ "\n") m.success_criteria ++ "\n").data
          ++ ((concatMapStr milestoneMd ms).data ++ rest), ?_, ?_⟩
    · show (concatMapStr milestoneMd (m :: ms)).data ++ rest = _
      rw [show concatMapStr milestoneMd (m :: ms)
            = milestoneMd m ++ concatMapStr milestoneMd ms from rfl]
      rw [strDataAppend, milestoneMd_decomp]
      simp [List.append_assoc]
    · exact containsInOrder_prepend _ _ _ (ih rest)

/-- The markdown text of `to_markdown` preceding the milestones section. -/
def mdIntro (p : Plan) : String :=
  "# " ++ p.project_name ++ "\n\n"
    ++ "**Project Summary:** " ++ p.project_summary ++ "\n\n"
    ++ "**Total Duration:** " ++ toString p.total_weeks ++ " weeks\n\n"
    ++ "## Milestones\n\n"

/-- The markdown text of `to_markdown` following the milestones section. -/
def mdAfterMilestones (p : Plan) : String :=
  "## Top 3 Risks\n\n" ++ risksMd 1 p.risks
    ++ "## Monitoring Checkpoints\n\n"
    ++ concatMapStr (fun c => "- " ++ c ++ "\n") p.monitoring_checkpoints
    ++ "\n## Parallel Work Opportunities\n\n"
    ++ concatMapStr (fun o => "- " ++ o ++ "\n") p.parallel_opportunities

lemma to_markdown_decomp (p : Plan) :
    (to_markdown p).data = (mdIntro p).data
      ++ ((concatMapStr milestoneMd p.milestones).data ++ (mdAfterMilestones p).data) := by
  simp [to_markdown, mdIntro, mdAfterMilestones, strDataAppend, List.append_assoc]

/-- C8: `to_markdown` is deterministic (equal Plans render byte-identically);
the output contains one H3 heading per milestone, in milestone-list order;
and the task renderer emits the `" (Can be done in parallel)"` suffix for a
task marked `can_parallel` (the suffix then occurs in the task's rendered
fragment) and renders an empty parallel note for a task not so marked. -/
theorem markdown_deterministic_and_ordered (p q : Plan) (t : Task) :
    (p = q → to_markdown p = to_markdown q) ∧
    containsInOrder (to_markdown p).data
      (p.milestones.map fun m => (milestoneHeading m).data) ∧
    (t.can_parallel = true →
      parallelNote t = parallelSuffix ∧ strContains parallelSuffix (taskMd t)) ∧
    (t.can_parallel = false → parallelNote t = "") := by
  refine ⟨fun h => by rw [h], ?_, ?_, ?_⟩
  · rw [to_markdown_decomp]
    exact containsInOrder_prepend _ _ _ (milestones_headings _ _)
  · intro hpar
    refine ⟨by simp [parallelNote, hpar], ?_⟩
    refine ⟨"- **" ++ t.name ++ "** (" ++ toString t.estimated_hours ++ "h)",
      "\n" ++ "  " ++ t.description ++ "\n"
        ++ (if t.dependencies.isEmpty then ""
            else "  Dependencies: " ++ String.intercalate ", " t.dependencies ++ "\n"), ?_⟩
    apply strExt
    simp [taskMd, parallelNote, hpar, strDataAppend, List.append_assoc]
  · intro hpar
    simp [parallelNote, hpar]

/-- A task marked as parallel-capable. -/
def sampleParTask : Task := ⟨"T1", "D1", 5, [], true⟩

/-- A task not marked as parallel-capable. -/
def sampleSeqTask : Task := ⟨"T2", "D2", 3, ["T1"], false⟩

/-- A small concrete plan with one milestone and both sample tasks. -/
def samplePlan : Plan :=
  ⟨"P", "S", 4, [⟨"M1", "MD", 1, ["d"], [sampleParTask, sampleSeqTask], ["ok"]⟩], [], [], []⟩

/-- Witness for `markdown_deterministic_and_ordered` at `samplePlan`. -/
theorem markdown_deterministic_and_ordered_witness :
    to_markdown samplePlan = to_markdown samplePlan ∧
    containsInOrder (to_markdown samplePlan).data
      (samplePlan.milestones.map fun m => (milestoneHeading m).data) ∧
    (parallelNote sampleParTask = parallelSuffix ∧
      strContains parallelSuffix (taskMd sampleParTask)) ∧
    parallelNote sampleSeqTask = "" :=
  ⟨(markdown_deterministic_and_ordered samplePlan samplePlan sampleParTask).1 rfl,
   (markdown_deterministic_and_ordered samplePlan samplePlan sampleParTask).2.1,
   (markdown_deterministic_and_ordered samplePlan samplePlan sampleParTask).2.2.1 rfl,
   (markdown_deterministic_and_ordered samplePlan samplePlan sampleSeqTask).2.2.2 rfl⟩

/-- The `"\n```"` tail appended when a fenced body is wrapped. -/
def nlFence : List Char := '\n' :: closeFence

lemma take_len_append (p r : List Char) : (p ++ r).take p.length = p := by
  induction p with
  | nil => rfl
  | cons c p ih => simp [ih]

lemma drop_len_append (p r : List Char) : (p ++ r).drop p.length = r := by
  induction p with
  | nil => rfl
  | cons c p ih => simp [ih]

lemma hasPre_append_self (p r : List Char) : hasPre p (p ++ r) = true := by
  simp [hasPre, take_len_append]

lemma hasPre_false_of_short {p l : List Char} (h : l.length < p.length) :
    hasPre p l = false := by
  rw [hasPre]
  by_contra hc
  have hb : p = l.take p.length := by
    have := Bool.not_eq_false (p == l.take p.length) |>.mp hc
    exact beq_iff_eq.mp this
  have := congrArg List.length hb
  simp [List.length_take] at this
  omega

lemma hasSub_false_hasPre {p l : List Char} (h : hasSub p l = false) :
    hasPre p l = false := by
  cases l with
  | nil => exact h
  | cons c cs =>
    rw [hasSub] at h
    exact (Bool.or_eq_false_iff.mp h).1

lemma hasSub_false_drop {p l : List Char} (h : hasSub p l = false) (n : Nat) :
    hasSub p (l.drop n) = false := by
  induction l generalizing n with
  | nil => simpa using h
  | cons c cs ih =>
    cases n with
    | zero => exact h
    | succ n =>
      rw [hasSub] at h
      exact ih (Bool.or_eq_false_iff.mp h).2 n

lemma hasPre_of_hasPre_jsonFence {l : List Char} (h : hasPre jsonFence l = true) :
    hasPre closeFence l = true := by
  rw [hasPre] at h ⊢
  have hp : jsonFence = l.take jsonFence.length := beq_iff_eq.mp h
  have : l.take closeFence.length = closeFence := by
    have e1 : closeFence = jsonFence.take 3 := rfl
    have e2 : closeFence.length = 3 := rfl
    rw [e2, show (3 : Nat) = min 3 jsonFence.length from rfl, ← List.take_take, ← hp, ← e1]
  rw [this]
  simp

lemma no_jsonFence_drops {s : List Char} (h : hasSub closeFence s = false) (n : Nat) :
    hasPre jsonFence (s.drop n) = false := by
  by_contra hc
  have hc' : hasPre jsonFence (s.drop n) = true := by
    simpa using hc
  have := hasPre_of_hasPre_jsonFence hc'
  rw [hasSub_false_hasPre (hasSub_false_drop h n)] at this
  exact absurd this (by simp)

lemma aux_id_of_no_pre : ∀ (fuel : Nat) (s : List Char),
    (∀ n, hasPre jsonFence (s.drop n) = false) →
    stripJsonFencesAux fuel s = s := by
  intro fuel
  induction fuel with
  | zero => intro s _; rfl
  | succ fuel ih =>
    intro s h
    cases s with
    | nil => rfl
    | cons c cs =>
      rw [stripJsonFencesAux, if_neg (by rw [show (c :: cs) = (c :: cs).drop 0 from rfl, h 0]; simp)]
      rw [ih cs fun n => h (n + 1)]

lemma hasPre_append_nlFence_false {b : List Char} (hb : hasSub jsonFence b = false) :
    hasPre jsonFence (b ++ nlFence) = false := by
  by_contra hc
  have hc' : hasPre jsonFence (b ++ nlFence) = true := by simpa using hc
  rw [hasPre] at hc'
  have hp : jsonFence = (b ++ nlFence).take jsonFence.length := beq_iff_eq.mp hc'
  rw [List.take_append_eq_append_take] at hp
  by_cases hlen : jsonFence.length ≤ b.length
  · have h0 : jsonFence.length - b.length = 0 := by omega
    rw [h0] at hp
    simp only [List.take_zero, List.append_nil] at hp
    have : hasPre jsonFence b = true := by
      rw [hasPre, hp]
      simp
    rw [hasSub_false_hasPre hb] at this
    exact absurd this (by simp)
  · have h1 : ∃ k, jsonFence.length - b.length = k + 1 := ⟨jsonFence.length - b.length - 1, by omega⟩
    obtain ⟨k, hk⟩ := h1
    rw [hk, show nlFence = '\n' :: closeFence from rfl, List.take_succ_cons] at hp
    have hmem : '\n' ∈ jsonFence := by
      rw [hp]
      exact List.mem_append_right _ (List.mem_cons_self _ _)
    exact absurd hmem (by decide)

lemma no_pre_append_nlFence {b : List Char} (hb : hasSub jsonFence b = false) (n : Nat) :
    hasPre jsonFence ((b ++ nlFence).drop n) = false := by
  by_cases hn : n ≤ b.length
  · rw [List.drop_append_eq_append_drop, show n - b.length = 0 by omega]
    simp only [List.drop_zero]
    exact hasPre_append_nlFence_false (hasSub_false_drop hb n)
  · apply hasPre_false_of_short
    have h4 : nlFence.length = 4 := rfl
    have h7 : jsonFence.length = 7 := rfl
    rw [h7]
    simp only [List.length_drop, List.length_append, h4]
    omega

lemma aux_id_body (fuel : Nat) (b : List Char) (hb : hasSub jsonFence b = false) :
    stripJsonFencesAux fuel (b ++ nlFence) = b ++ nlFence :=
  aux_id_of_no_pre fuel _ (no_pre_append_nlFence hb)

lemma aux_cons_pos (fuel : Nat) (c : Char) (cs : List Char)
    (h : hasPre jsonFence (c :: cs) = true) :
    stripJsonFencesAux (fuel + 1) (c :: cs) =
      stripJsonFencesAux fuel (dropSpaces ((c :: cs).drop jsonFence.length)) := by
  simp only [stripJsonFencesAux]
  rw [if_pos h]

lemma stripJsonFences_wrapped (body : List Char) (h1 : body.head? = some lbrace)
    (hb : hasSub jsonFence body = false) :
    stripJsonFences (jsonFence ++ '\n' :: (body ++ nlFence)) = body ++ nlFence := by
  obtain ⟨b', rfl⟩ : ∃ b', body = lbrace :: b' := by
    cases body with
    | nil => simp at h1
    | cons c cs =>
      refine ⟨cs, ?_⟩
      injection h1 with h1
      rw [h1]
  have e : jsonFence ++ '\n' :: ((lbrace :: b') ++ nlFence) =
      Char.ofNat 96 :: ("``json".data ++ ('\n' :: ((lbrace :: b') ++ nlFence))) := rfl
  have hpre : hasPre jsonFence
      (Char.ofNat 96 :: ("``json".data ++ ('\n' :: ((lbrace :: b') ++ nlFence)))) = true := by
    rw [← e]
    exact hasPre_append_self _ _
  rw [stripJsonFences, e, List.length_cons, aux_cons_pos _ _ _ hpre]
  have e2 : ((Char.ofNat 96 :: ("``json".data ++ ('\n' :: ((lbrace :: b') ++ nlFence))))).drop
      jsonFence.length = '\n' :: ((lbrace :: b') ++ nlFence) := rfl
  rw [e2]
  have e3 : dropSpaces ('\n' :: ((lbrace :: b') ++ nlFence)) = (lbrace :: b') ++ nlFence := rfl
  rw [e3]
  exact aux_id_body _ _ hb

lemma mem_of_getLast?' : ∀ {l : List Char} {a : Char}, l.getLast? = some a → a ∈ l := by
  intro l
  induction l with
  | nil =>
    intro a h
    simp at h
  | cons c cs ih =>
    intro a h
    cases cs with
    | nil =>
      simp at h
      simp [h]
    | cons d ds =>
      rw [List.getLast?_cons_cons] at h
      exact List.mem_cons_of_mem _ (ih h)

lemma stripTrailingFence_body (body : List Char) (h2 : body.getLast? = some rbrace) :
    stripTrailingFence (body ++ nlFence) = body ++ ['\n'] := by
  induction body with
  | nil => simp at h2
  | cons c body' ih =>
    have hmem : rbrace ∈ c :: body' := mem_of_getLast?' h2
    have hmemL : rbrace ∈ c :: (body' ++ nlFence) := by
      rcases List.mem_cons.mp hmem with rfl | hm
      · exact List.mem_cons_self _ _
      · exact List.mem_cons_of_mem _ (List.mem_append_left _ hm)
    have hcond : (hasPre closeFence (c :: (body' ++ nlFence)) &&
        ((c :: (body' ++ nlFence)).drop closeFence.length).all isPySpace) = false := by
      by_contra hc
      have hc' := Bool.and_eq_true _ _ |>.mp (Bool.not_eq_false _ |>.mp hc)
      have hsplit : rbrace ∈ (c :: (body' ++ nlFence)).take closeFence.length ∨
          rbrace ∈ (c :: (body' ++ nlFence)).drop closeFence.length := by
        rw [← List.mem_append, List.take_append_drop]
        exact hmemL
      rcases hsplit with hin | hin
      · have hp : closeFence = (c :: (body' ++ nlFence)).take closeFence.length :=
          beq_iff_eq.mp hc'.1
        rw [← hp] at hin
        exact absurd hin (by decide)
      · have := List.all_eq_true.mp hc'.2 _ hin
        exact absurd this (by decide)
    show stripTrailingFence ((c :: body') ++ nlFence) = (c :: body') ++ ['\n']
    rw [show (c :: body') ++ nlFence = c :: (body' ++ nlFence) from rfl]
    rw [stripTrailingFence, if_neg (by rw [hcond]; simp)]
    cases body' with
    | nil =>
      rw [show stripTrailingFence ([] ++ nlFence) = ['\n'] by decide]
      rfl
    | cons d body'' =>
      have h2' : (d :: body'').getLast? = some rbrace := by
        rwa [List.getLast?_cons_cons] at h2
      rw [ih h2']
      rfl

lemma braceSpan_body (body : List Char) (h1 : body.head? = some lbrace)
    (h2 : body.getLast? = some rbrace) :
    braceSpan (body ++ ['\n']) = some body := by
  obtain ⟨b', rfl⟩ : ∃ b', body = lbrace :: b' := by
    cases body with
    | nil => simp at h1
    | cons c cs =>
      refine ⟨cs, ?_⟩
      injection h1 with h1
      rw [h1]
  have hb' : b' ≠ [] := by
    intro h
    subst h
    simp at h2
    exact absurd h2 (by decide)
  have hfi : firstIdx (fun c => c == lbrace) ((lbrace :: b') ++ ['\n']) = some 0 := by
    simp [firstIdx]
  have hrev : ∃ t, (lbrace :: b').reverse = rbrace :: t := by
    have hh : (lbrace :: b').reverse.head? = some rbrace := by
      rw [List.head?_reverse]
      exact h2
    cases hr : (lbrace :: b').reverse with
    | nil => rw [hr] at hh; simp at hh
    | cons x t =>
      rw [hr] at hh
      injection hh with hh
      exact ⟨t, by rw [hh]⟩
  obtain ⟨t, ht⟩ := hrev
  have hlast : firstIdx (fun c => c == rbrace) (((lbrace :: b') ++ ['\n']).reverse) = some 1 := by
    rw [List.reverse_append, ht]
    rw [show ['\n'].reverse ++ rbrace :: t = '\n' :: rbrace :: t from rfl]
    rw [firstIdx, if_neg (by decide), firstIdx, if_pos (by decide)]
    rfl
  simp only [braceSpan, hfi, hlast]
  have hlen : ((lbrace :: b') ++ ['\n']).length = b'.length + 2 := by simp
  rw [hlen]
  have hpos : 0 < b'.length + 2 - 1 - 1 := by
    have := List.length_pos.mpr hb'
    omega
  rw [if_pos hpos]
  congr 1
  simp only [List.drop_zero]
  have harith : b'.length + 2 - 1 - 1 + 1 - 0 = (lbrace :: b').length := by
    simp
  rw [harith, take_len_append]

lemma cleanChars_wrapped (body : List Char) (h1 : body.head? = some lbrace)
    (h2 : body.getLast? = some rbrace) (hb : hasSub jsonFence body = false) :
    cleanChars (jsonFence ++ '\n' :: (body ++ nlFence)) = body := by
  simp only [cleanChars]
  rw [stripJsonFences_wrapped body h1 hb, stripTrailingFence_body body h2,
    braceSpan_body body h1 h2]

lemma stripTrailingFence_id {s : List Char} (h : hasSub closeFence s = false) :
    stripTrailingFence s = s := by
  induction s with
  | nil => rfl
  | cons c cs ih =>
    rw [hasSub] at h
    obtain ⟨h1, h2⟩ := Bool.or_eq_false_iff.mp h
    rw [stripTrailingFence, if_neg (by rw [h1]; simp)]
    rw [ih h2]

lemma firstIdx_none {p : Char → Bool} {s : List Char} (h : ∀ c ∈ s, p c = false) :
    firstIdx p s = none := by
  induction s with
  | nil => rfl
  | cons c cs ih =>
    rw [firstIdx, if_neg (by rw [h c (by simp)]; simp)]
    rw [ih fun c hc => h c (List.mem_cons_of_mem _ hc)]
    rfl

lemma cleanChars_no_fence_no_brace {s : List Char} (hf : hasSub closeFence s = false)
    (hbrace : ¬ lbrace ∈ s) :
    cleanChars s = pyStrip s := by
  have h1 : stripJsonFences s = s :=
    aux_id_of_no_pre _ _ (no_jsonFence_drops hf)
  have h3 : firstIdx (fun c => c == lbrace) s = none := by
    apply firstIdx_none
    intro c hc
    have : c ≠ lbrace := fun hcl => hbrace (hcl ▸ hc)
    simp [this]
  simp only [cleanChars, h1, stripTrailingFence_id hf, braceSpan, h3]

/-- The input on which the claim's algorithm and the code disagree. -/
def c4Input : List Char := "a ```json b".data

/-- C4 counterexample: the code's first substitution removes *every*
```` ```json ```` occurrence (with following whitespace) anywhere in the
string, not only a leading fence, and its no-brace fallback trims the
fence-stripped text, not the original; on `"a ```json b"` the claim's
algorithm (`specCleanChars`) leaves the string unchanged while the code
returns `"a b"`. -/
theorem sanitizer_algorithm_counterexample :
    specCleanChars c4Input = "a ```json b".data ∧
      cleanChars c4Input = "a b".data ∧
      cleanChars c4Input ≠ specCleanChars c4Input :=
  ⟨by decide, by decide, by decide⟩

/-- C4 as amended: `clean_json_response` removes every ```` ```json ````
occurrence (plus trailing whitespace) anywhere, truncates at the first
```` ``` ```` that is followed only by whitespace, then returns the
first-brace-to-last-brace span if present and otherwise the
whitespace-trimmed *fence-stripped* text.  Consequently: (a) a string
wrapped in a ```` ```json ```` fence whose body is a brace-delimited JSON
object (with no fence inside) is returned as exactly that body; (b) a
string containing no ```` ``` ```` and no open brace is returned
whitespace-trimmed and otherwise unchanged. -/
theorem sanitizer_fence_stripped (body s : List Char) :
    (body.head? = some lbrace → body.getLast? = some rbrace →
      hasSub jsonFence body = false →
      cleanChars (jsonFence ++ '\n' :: (body ++ nlFence)) = body) ∧
    (hasSub closeFence s = false → ¬ lbrace ∈ s → cleanChars s = pyStrip s) :=
  ⟨fun h1 h2 hb => cleanChars_wrapped body h1 h2 hb,
   fun hf hb => cleanChars_no_fence_no_brace hf hb⟩

/-- Witness for `sanitizer_fence_stripped` at the body `"\x7ba\x7d"` and the
brace-free string `"hi"`. -/
theorem sanitizer_fence_stripped_witness :
    cleanChars (jsonFence ++ '\n' :: ("\x7ba\x7d".data ++ nlFence)) = "\x7ba\x7d".data ∧
      cleanChars "hi".data = pyStrip "hi".data :=
  ⟨(sanitizer_fence_stripped "\x7ba\x7d".data "hi".data).1 (by decide) (by decide) (by decide),
   (sanitizer_fence_stripped "\x7ba\x7d".data "hi".data).2 (by decide) (by decide)⟩

end AIPlanner
